import Mathlib

/-!
# Logs-Dashboard backend: shallow embedding and verification

Embedding of `backend/logs_app` (models.py, filters.py, views.py,
serializers.py): the log data model, the filter engine (`LogFilter` plus the
search backend configured by `search_fields`), the aggregation endpoint
(`LogViewSet.aggregated`), the streaming CSV export (`LogViewSet.export_csv`,
using Python's `csv.writer` with the default QUOTE_MINIMAL dialect), and the
per-user filter-preference store (`UserFilterPreferenceViewSet` over
`UserFilterPreference` with `unique_together [["user", "name"]]`).

Timestamps are modelled structurally (year/month/day/hour/minute/second as
naturals) so that `TruncDay`/`TruncMonth` and full date-time-precision
comparison are expressible.  Querysets are lists of records; the database's
distinct-value grouping (`.values(...).annotate(Count)`) is modelled as
dedup-plus-count, and its `order_by` as a sort.
-/

namespace LogsDashboard

/-- A civil date, as produced by `period.date()` in the aggregation view. -/
structure Date where
  year : Nat
  month : Nat
  day : Nat
deriving DecidableEq, Repr

/-- A date-time at second precision: the `timestamp` column
(`models.DateTimeField`). -/
structure DateTime where
  year : Nat
  month : Nat
  day : Nat
  hour : Nat
  minute : Nat
  second : Nat
deriving DecidableEq, Repr

/-- One row of the `Log` table (models.py): id, timestamp, message,
severity, source. -/
structure Log where
  id : Nat
  timestamp : DateTime
  message : String
  severity : String
  source : String
deriving DecidableEq, Repr

/-- Strict chronological order on date-times: lexicographic on
(year, month, day, hour, minute, second), i.e. comparison at full
date-time precision. -/
def dtLt (a b : DateTime) : Prop :=
  a.year < b.year ∨ (a.year = b.year ∧
    (a.month < b.month ∨ (a.month = b.month ∧
      (a.day < b.day ∨ (a.day = b.day ∧
        (a.hour < b.hour ∨ (a.hour = b.hour ∧
          (a.minute < b.minute ∨ (a.minute = b.minute ∧
            a.second < b.second)))))))))

/-- Chronological `≤` on date-times. -/
def dtLe (a b : DateTime) : Prop := dtLt a b ∨ a = b

instance : DecidableRel dtLt := fun a b => by unfold dtLt; infer_instance

instance : DecidableRel dtLe := fun a b => by unfold dtLe; infer_instance

/-- Strict order on dates: lexicographic on (year, month, day). -/
def dateLt (a b : Date) : Prop :=
  a.year < b.year ∨ (a.year = b.year ∧
    (a.month < b.month ∨ (a.month = b.month ∧ a.day < b.day)))

/-- `≤` on dates. -/
def dateLe (a b : Date) : Prop := dateLt a b ∨ a = b

instance : DecidableRel dateLt := fun a b => by unfold dateLt; infer_instance

instance : DecidableRel dateLe := fun a b => by unfold dateLe; infer_instance

/-! ## Filter engine (filters.py `LogFilter` + DRF search backend) -/

/-- The transient filter query: `severity`, `source` (exact match),
`date_from`/`date_to` (`IsoDateTimeFilter` on `timestamp`, `gte`/`lte`),
and the free-text `search` term.  `none` = parameter absent. -/
structure FilterQuery where
  severity : Option String
  source : Option String
  date_from : Option DateTime
  date_to : Option DateTime
  search : Option String
deriving Repr

/-- A query with no constraint at all. -/
def FilterQuery.empty : FilterQuery :=
  { severity := none, source := none, date_from := none, date_to := none,
    search := none }

/-- ASCII-style lowercasing of a string, as the database's case-insensitive
match (`icontains`) lowercases both sides. -/
def lowerStr (s : String) : List Char := s.data.map Char.toLower

/-- `needle` occurs case-insensitively as a substring of `hay`
(`icontains`). -/
def containsCI (needle hay : String) : Prop :=
  lowerStr needle <:+: lowerStr hay

instance (n h : String) : Decidable (containsCI n h) :=
  List.decidableInfix _ _

/-- The predicate of the `django-filter` filterset (`LogFilter`): exact
severity, exact source, inclusive timestamp bounds — all conjoined. -/
def filtersetPred (q : FilterQuery) (r : Log) : Bool :=
  (match q.severity with | none => true | some s => decide (r.severity = s)) &&
  (match q.source with | none => true | some s => decide (r.source = s)) &&
  (match q.date_from with | none => true | some a => decide (dtLe a r.timestamp)) &&
  (match q.date_to with | none => true | some b => decide (dtLe r.timestamp b))

/-- The predicate of the search backend over `search_fields =
["message", "source"]`: case-insensitive substring of message OR source. -/
def searchPred (q : FilterQuery) (r : Log) : Bool :=
  match q.search with
  | none => true
  | some t => decide (containsCI t r.message) || decide (containsCI t r.source)

/-- `Log.Meta.ordering = ["-timestamp"]`: the base queryset is sorted by
descending timestamp. -/
def orderLogs (logs : List Log) : List Log :=
  logs.insertionSort (fun a b => dtLe b.timestamp a.timestamp)

/-- `filter_queryset(get_queryset())`: the base (ordered) queryset run
through the filterset backend, then the search backend. -/
def filteredLogs (q : FilterQuery) (logs : List Log) : List Log :=
  ((orderLogs logs).filter (filtersetPred q)).filter (searchPred q)

/-- The `raw` action: the filtered queryset serialized record by record
(`LogSerializer` keeps the five fields unchanged). -/
def rawListing (q : FilterQuery) (logs : List Log) : List Log :=
  filteredLogs q logs

/-- A query carrying only `date_from=a` and `date_to=b`. -/
def rangeQuery (a b : DateTime) : FilterQuery :=
  { severity := none, source := none, date_from := some a, date_to := some b,
    search := none }

/-- A query carrying only `search=t`. -/
def searchQuery (t : String) : FilterQuery :=
  { severity := none, source := none, date_from := none, date_to := none,
    search := some t }

/-! ## Aggregation engine (`LogViewSet.aggregated`) -/

/-- `TruncDay("timestamp") if interval == "day" else TruncMonth("timestamp")`,
followed by `.date()`: day truncation keeps (y, m, d); any other interval
string selects month truncation, which resets the day to 1. -/
def truncTs (interval : String) (t : DateTime) : Date :=
  if interval = "day" then ⟨t.year, t.month, t.day⟩ else ⟨t.year, t.month, 1⟩

/-- `Count("id")` within one date bucket: how many filtered records truncate
to the bucket key `d`. -/
def bucketCount (interval : String) (logs : List Log) (d : Date) : Nat :=
  (logs.filter (fun r => truncTs interval r.timestamp == d)).length

/-- The distinct bucket keys of `.values("period")`, in the ascending
`order_by("period")` order. -/
def bucketKeys (interval : String) (logs : List Log) : List Date :=
  ((logs.map (fun r => truncTs interval r.timestamp)).dedup).insertionSort dateLe

/-- `group_by=date`: one `(bucket, count)` entry per observed period,
ascending by period. -/
def aggregatedDate (interval : String) (logs : List Log) : List (Date × Nat) :=
  (bucketKeys interval logs).map (fun d => (d, bucketCount interval logs d))

/-- Zero-pad a natural to two digits, as `date.isoformat()` does. -/
def pad2 (n : Nat) : String :=
  if n < 10 then "0" ++ toString n else toString n

/-- Zero-pad a natural to four digits, as `date.isoformat()` does. -/
def pad4 (n : Nat) : String :=
  if n < 10 then "000" ++ toString n
  else if n < 100 then "00" ++ toString n
  else if n < 1000 then "0" ++ toString n
  else toString n

/-- `date.isoformat()`: `YYYY-MM-DD`. -/
def isoDate (d : Date) : String :=
  pad4 d.year ++ "-" ++ pad2 d.month ++ "-" ++ pad2 d.day

/-- The serialized `group_by=date` payload:
`{"date": period.date().isoformat(), "count": n}` per bucket. -/
def aggregatedDateJson (interval : String) (logs : List Log) :
    List (String × Nat) :=
  (aggregatedDate interval logs).map (fun e => (isoDate e.1, e.2))

/-- `Count("id")` within one key group of `.values(field)`. -/
def countKey (f : Log → String) (logs : List Log) (k : String) : Nat :=
  (logs.filter (fun r => f r == k)).length

/-- `qs.values(field).annotate(count=Count("id")).order_by("-count")`:
one entry per distinct value of `f` present in `logs`, sorted by
descending count. -/
def groupCounts (f : Log → String) (logs : List Log) : List (String × Nat) :=
  (((logs.map f).dedup).insertionSort
      (fun a b => countKey f logs b ≤ countKey f logs a)).map
    (fun k => (k, countKey f logs k))

/-- The aggregation response: a date-bucketed payload, or a keyed payload
tagged with the name of the grouped column (`"severity"` or `"source"`). -/
inductive AggResponse where
  | byDate : List (String × Nat) → AggResponse
  | byKey : String → List (String × Nat) → AggResponse
deriving DecidableEq, Repr

/-- The `aggregated` action body: dispatch on `group_by`; anything that is
neither `"date"` nor `"severity"` falls into the `else` (source) branch. -/
def aggregated (group_by interval : String) (logs : List Log) : AggResponse :=
  if group_by = "date" then .byDate (aggregatedDateJson interval logs)
  else if group_by = "severity" then
    .byKey "severity" (groupCounts (fun r => r.severity) logs)
  else
    .byKey "source" (groupCounts (fun r => r.source) logs)

/-- The `aggregated` action's query parameters, `none` when absent. -/
structure AggParams where
  group_by : Option String
  interval : Option String
deriving Repr

/-- `request.query_params.get("group_by", "date")` /
`.get("interval", "day")`, then the dispatch. -/
def aggregatedEndpoint (p : AggParams) (logs : List Log) : AggResponse :=
  aggregated (p.group_by.getD "date") (p.interval.getD "day") logs

/-! ## Filter preference store (`UserFilterPreferenceViewSet`) -/

/-- One row of `UserFilterPreference`: server-assigned id, owning user
(foreign key, modelled by the user's id), name, and the saved filter
fields. -/
structure Pref where
  id : Nat
  user : Nat
  name : String
  severity : String
  source : String
  dateFrom : Option Date
  dateTo : Option Date
deriving DecidableEq, Repr

/-- DRF error outcomes relevant to the preference endpoints. -/
inductive ApiError where
  | notFound
  | forbidden
  | uniqueViolation
deriving DecidableEq, Repr

/-- `get_queryset`: `self.queryset.filter(user=self.request.user)` — the
store restricted to the caller's rows. -/
def prefQueryset (caller : Nat) (store : List Pref) : List Pref :=
  store.filter (fun p => p.user == caller)

/-- The list endpoint: the caller-scoped queryset. -/
def listPrefs (caller : Nat) (store : List Pref) : List Pref :=
  prefQueryset caller store

/-- The retrieve endpoint: DRF `get_object` looks the pk up inside
`get_queryset()`, so a miss—including another user's row—is a 404. -/
def retrievePref (caller : Nat) (pid : Nat) (store : List Pref) :
    Except ApiError Pref :=
  match (prefQueryset caller store).find? (fun p => p.id == pid) with
  | some p => .ok p
  | none => .error .notFound

/-- The update endpoint: resolve the pk inside the caller-scoped queryset;
on a hit, rewrite the writable fields of that row. Returns the response
together with the store after the call. -/
def updatePref (caller : Nat) (pid : Nat) (newName : String)
    (store : List Pref) : Except ApiError Pref × List Pref :=
  match (prefQueryset caller store).find? (fun p => p.id == pid) with
  | some p =>
      let p' : Pref := { p with name := newName }
      (.ok p', store.map (fun q => if q.id == pid && q.user == caller then p' else q))
  | none => (.error .notFound, store)

/-- The delete endpoint: resolve the pk inside the caller-scoped queryset;
on a hit, remove that row. -/
def deletePref (caller : Nat) (pid : Nat) (store : List Pref) :
    Except ApiError Unit × List Pref :=
  if (prefQueryset caller store).any (fun p => p.id == pid) then
    (.ok (), store.filter (fun p => !(p.id == pid && p.user == caller)))
  else
    (.error .notFound, store)

/-- A fresh server-assigned id, larger than every id in the store. -/
def freshId (store : List Pref) : Nat :=
  (store.map (fun p => p.id)).foldr max 0 + 1

/-- The create endpoint: `perform_create` assigns `user = request.user`;
`unique_together [["user", "name"]]` (models.py) rejects a (user, name)
pair that already exists, leaving the table unchanged. -/
def createPref (caller : Nat) (name severity source : String)
    (dateFrom dateTo : Option Date) (store : List Pref) :
    Except ApiError Pref × List Pref :=
  if store.any (fun p => p.user == caller && p.name == name) then
    (.error .uniqueViolation, store)
  else
    let p : Pref := { id := freshId store, user := caller, name := name,
                      severity := severity, source := source,
                      dateFrom := dateFrom, dateTo := dateTo }
    (.ok p, p :: store)

/-! ## Streaming CSV export (`LogViewSet.export_csv`)

`csv.writer` with the default dialect: delimiter `,`, quote char `"`,
line terminator CRLF, QUOTE_MINIMAL — a field is quoted iff it contains
the delimiter, the quote char, or a line-terminator character (or is the
single empty field of a one-field row), and embedded quote chars are
doubled. -/

/-- QUOTE_MINIMAL trigger: the field contains `,`, `"`, CR or LF. -/
def needsQuote (f : String) : Bool :=
  f.data.any (fun c => c = ',' || c = '"' || c = '\r' || c = '\n')

/-- Double every embedded quote char. -/
def escField : List Char → List Char
  | [] => []
  | c :: cs => if c = '"' then '"' :: '"' :: escField cs else c :: escField cs

/-- Encode one field.  `oneEmpty` is the `csv.writer` corner case: the single
field of a one-field row is quoted when empty (so the row is not mistaken
for an empty row). -/
def encodeField (oneEmpty : Bool) (f : String) : String :=
  if needsQuote f || (oneEmpty && f == "") then
    "\"" ++ String.mk (escField f.data) ++ "\""
  else f

/-- Encoded fields joined by the delimiter, as the writer emits them left
to right. -/
def joinFields (b : Bool) : List String → String
  | [] => ""
  | [f] => encodeField b f
  | f :: f2 :: fs => encodeField b f ++ "," ++ joinFields b (f2 :: fs)

/-- `writer.writerow(row)`: encoded fields joined by the delimiter, then
CRLF. -/
def writeRow (row : List String) : String :=
  joinFields (decide (row.length = 1)) row ++ "\r\n"

/-- The generator's concatenated output: one `writerow` per row, in order. -/
def csvLines : List (List String) → String
  | [] => ""
  | row :: rows => writeRow row ++ csvLines rows

/-- The header row written first by `generate_csv`. -/
def csvHeader : List String := ["id", "timestamp", "message", "severity", "source"]

/-- Textual rendering of a timestamp as `str(log.timestamp)` renders it:
zero-padded `YYYY-MM-DD HH:MM:SS` (sub-second and zone suffixes elided at
the model's second precision). -/
def renderTs (t : DateTime) : String :=
  pad4 t.year ++ "-" ++ pad2 t.month ++ "-" ++ pad2 t.day ++ " " ++
    pad2 t.hour ++ ":" ++ pad2 t.minute ++ ":" ++ pad2 t.second

/-- The field list `[log.id, log.timestamp, log.message, log.severity,
log.source]` passed to `writerow`, each value rendered to text. -/
def recordRow (r : Log) : List String :=
  [toString r.id, renderTs r.timestamp, r.message, r.severity, r.source]

/-- `export_csv`: the header row, then one CSV row per record of the
filtered queryset, streamed in order. -/
def exportCsv (q : FilterQuery) (logs : List Log) : String :=
  csvLines (csvHeader :: (filteredLogs q logs).map recordRow)

/-! ### A strict CSV reader

`parseQuoted` reads the remainder of a quoted field (opening quote already
consumed), `parseField` one field, `parseRecord` one comma-separated
record, `parseRecords` a whole document of CRLF-terminated records. -/

/-- Read a quoted field after its opening quote: a doubled quote char is a
literal quote; a lone one closes the field.  The returned remainder carries
the proof that the reader consumed at least nothing (never grew). -/
def parseQuoted : (cs : List Char) →
    Option (List Char × { r : List Char // r.length ≤ cs.length })
  | [] => none
  | [c] =>
    if c = '"' then some ([], ⟨[], by simp⟩) else none
  | c :: c2 :: r2 =>
    if c = '"' then
      if c2 = '"' then
        (parseQuoted r2).map (fun p =>
          ('"' :: p.1, ⟨p.2.1, by
            have h := p.2.2
            simp only [List.length_cons]
            omega⟩))
      else some ([], ⟨c2 :: r2, by simp only [List.length_cons]; omega⟩)
    else
      (parseQuoted (c2 :: r2)).map (fun p =>
        (c :: p.1, ⟨p.2.1, by
          have h := p.2.2
          simp only [List.length_cons] at h ⊢
          omega⟩))

/-- A char that ends an unquoted field. -/
def stopChar (c : Char) : Bool := c = ',' || c = '\r' || c = '\n' || c = '"'

/-- Read the run of chars of an unquoted field, up to a delimiter, line
terminator or quote char. -/
def parseUnquoted : (cs : List Char) →
    List Char × { r : List Char // r.length ≤ cs.length }
  | [] => ([], ⟨[], by simp⟩)
  | c :: rest =>
    if stopChar c then ([], ⟨c :: rest, by simp⟩)
    else
      let p := parseUnquoted rest
      (c :: p.1, ⟨p.2.1, by
        have h := p.2.2
        simp only [List.length_cons]
        omega⟩)

/-- Read one field: quoted if it opens with a quote char, otherwise an
unquoted run (a stray quote char after it is rejected). -/
def parseField (cs : List Char) :
    Option (String × { r : List Char // r.length ≤ cs.length }) :=
  match cs with
  | [] => some ("", ⟨[], by simp⟩)
  | c :: rest =>
    if c = '"' then
      (parseQuoted rest).map (fun p =>
        (String.mk p.1, ⟨p.2.1, by
          have h := p.2.2
          simp only [List.length_cons]
          omega⟩))
    else
      let u := parseUnquoted (c :: rest)
      if u.2.1.head? = some '"' then none else some (String.mk u.1, u.2)

/-- Read one record: fields separated by the delimiter. -/
def parseRecord (cs : List Char) :
    Option (List String × { r : List Char // r.length ≤ cs.length }) :=
  match parseField cs with
  | none => none
  | some (f, ⟨[], _⟩) => some ([f], ⟨[], by simp⟩)
  | some (f, ⟨c :: r2, hr⟩) =>
    if c = ',' then
      have hlt : r2.length < cs.length := by
        simp only [List.length_cons] at hr
        omega
      (parseRecord r2).map (fun p =>
        (f :: p.1, ⟨p.2.1, Nat.le_trans p.2.2 (Nat.le_of_lt hlt)⟩))
    else some ([f], ⟨c :: r2, hr⟩)
termination_by cs.length
decreasing_by
  exact hlt

/-- Read a document: CRLF-terminated records until the input is
exhausted. -/
def parseRecords (cs : List Char) : Option (List (List String)) :=
  match cs with
  | [] => some []
  | c0 :: cs0 =>
    match parseRecord (c0 :: cs0) with
    | none => none
    | some (row, ⟨c1 :: c2 :: r2, hr⟩) =>
      if c1 = '\r' ∧ c2 = '\n' then
        have hlt : r2.length < (c0 :: cs0).length := by
          simp only [List.length_cons] at hr ⊢
          omega
        (parseRecords r2).map (row :: ·)
      else none
    | some (_, _) => none
termination_by cs.length
decreasing_by
  exact hlt

/-- `csv.reader` over the exported text. -/
def csvParse (s : String) : Option (List (List String)) :=
  parseRecords s.data

/-! ## General lemmas about the embedding -/

/-- `dateLe` in purely arithmetic form. -/
theorem dateLe_iff (a b : Date) :
    dateLe a b ↔ (a.year < b.year ∨ (a.year = b.year ∧
      (a.month < b.month ∨ (a.month = b.month ∧ a.day < b.day))) ∨
      (a.year = b.year ∧ a.month = b.month ∧ a.day = b.day)) := by
  unfold dateLe dateLt
  constructor
  · rintro (h | rfl)
    · tauto
    · tauto
  · rintro (h | h | ⟨h1, h2, h3⟩)
    · tauto
    · tauto
    · right
      cases a; cases b
      simp_all

/-- Membership in the filtered queryset: base membership plus the filterset
predicate plus the search predicate. -/
theorem mem_filteredLogs {q : FilterQuery} {logs : List Log} {r : Log} :
    r ∈ filteredLogs q logs ↔
      r ∈ logs ∧ filtersetPred q r = true ∧ searchPred q r = true := by
  simp only [filteredLogs, List.mem_filter, orderLogs, List.mem_insertionSort,
    and_assoc]

/-- Reflexivity of the chronological order. -/
theorem dtLe_refl (t : DateTime) : dtLe t t := Or.inr rfl

/-- Every entry of `groupCounts` pairs a key with its group count. -/
theorem groupCounts_snd (f : Log → String) (logs : List Log) :
    ∀ e ∈ groupCounts f logs, e.2 = countKey f logs e.1 := by
  intro e he
  simp only [groupCounts, List.mem_map] at he
  obtain ⟨k, -, rfl⟩ := he
  rfl

/-- The keys of `groupCounts` are a permutation of the distinct values of
`f` over `logs`. -/
theorem groupCounts_keys_perm (f : Log → String) (logs : List Log) :
    ((groupCounts f logs).map Prod.fst).Perm (logs.map f).dedup := by
  have h1 : (groupCounts f logs).map Prod.fst =
      ((logs.map f).dedup).insertionSort
        (fun a b => countKey f logs b ≤ countKey f logs a) := by
    simp [groupCounts, List.map_map, Function.comp_def]
  rw [h1]
  exact List.perm_insertionSort _ _

/-- A key appears in `groupCounts` iff some record carries it. -/
theorem groupCounts_keys_mem (f : Log → String) (logs : List Log)
    (s : String) :
    s ∈ (groupCounts f logs).map Prod.fst ↔ ∃ r ∈ logs, f r = s := by
  rw [(groupCounts_keys_perm f logs).mem_iff, List.mem_dedup, List.mem_map]

/-- No key is emitted twice. -/
theorem groupCounts_keys_nodup (f : Log → String) (logs : List Log) :
    ((groupCounts f logs).map Prod.fst).Nodup :=
  (groupCounts_keys_perm f logs).nodup_iff.mpr (logs.map f).nodup_dedup

/-- Entries are sorted by descending count. -/
theorem groupCounts_sorted (f : Log → String) (logs : List Log) :
    (groupCounts f logs).Pairwise (fun e1 e2 => e2.2 ≤ e1.2) := by
  rw [groupCounts, List.pairwise_map]
  haveI : IsTotal String (fun a b => countKey f logs b ≤ countKey f logs a) :=
    ⟨fun a b => Nat.le_total (countKey f logs b) (countKey f logs a)⟩
  haveI : IsTrans String (fun a b => countKey f logs b ≤ countKey f logs a) :=
    ⟨fun _ _ _ h1 h2 => Nat.le_trans h2 h1⟩
  exact List.sorted_insertionSort _ _

/-- A group count equals the count of the key in the mapped list. -/
theorem countKey_eq_count (f : Log → String) (logs : List Log) (k : String) :
    countKey f logs k = (logs.map f).count k := by
  rw [countKey, ← List.countP_eq_length_filter, List.count_eq_countP,
    List.countP_map]
  rfl

/-- The emitted counts add up to the number of filtered records. -/
theorem groupCounts_sum (f : Log → String) (logs : List Log) :
    ((groupCounts f logs).map Prod.snd).sum = logs.length := by
  have h1 : (groupCounts f logs).map Prod.snd =
      (((logs.map f).dedup).insertionSort
        (fun a b => countKey f logs b ≤ countKey f logs a)).map
          (fun k => countKey f logs k) := by
    simp [groupCounts, List.map_map, Function.comp_def]
  rw [h1]
  rw [((List.perm_insertionSort _ _).map (fun k => countKey f logs k)).sum_eq]
  have h2 : ((logs.map f).dedup).map (fun k => countKey f logs k) =
      ((logs.map f).dedup).map (fun k => (logs.map f).count k) := by
    exact List.map_congr_left (fun k _ => countKey_eq_count f logs k)
  rw [h2, List.sum_map_count_dedup_eq_length, List.length_map]

/-- A key group is non-empty exactly when the key is present. -/
theorem countKey_pos (f : Log → String) (logs : List Log) (k : String)
    (h : ∃ r ∈ logs, f r = k) : 0 < countKey f logs k := by
  obtain ⟨r, hr, rfl⟩ := h
  rw [countKey]
  have : r ∈ logs.filter (fun x => f x == f r) := by
    rw [List.mem_filter]
    exact ⟨hr, by simp⟩
  exact List.length_pos.mpr (List.ne_nil_of_mem this)

/-- The bucket keys are a permutation of the distinct truncated
timestamps. -/
theorem bucketKeys_perm (interval : String) (logs : List Log) :
    (bucketKeys interval logs).Perm
      ((logs.map (fun r => truncTs interval r.timestamp)).dedup) :=
  List.perm_insertionSort _ _

/-- A bucket key appears iff some record truncates to it. -/
theorem mem_bucketKeys (interval : String) (logs : List Log) (d : Date) :
    d ∈ bucketKeys interval logs ↔
      ∃ r ∈ logs, truncTs interval r.timestamp = d := by
  rw [(bucketKeys_perm interval logs).mem_iff, List.mem_dedup, List.mem_map]

/-- The bucket keys are strictly ascending. -/
theorem bucketKeys_sorted (interval : String) (logs : List Log) :
    (bucketKeys interval logs).Pairwise dateLt := by
  have hle : (bucketKeys interval logs).Pairwise dateLe := by
    haveI : IsTotal Date dateLe := ⟨by
      intro a b
      rw [dateLe_iff, dateLe_iff]
      omega⟩
    haveI : IsTrans Date dateLe := ⟨by
      intro a b c hab hbc
      rw [dateLe_iff] at *
      omega⟩
    exact List.sorted_insertionSort _ _
  have hnd : (bucketKeys interval logs).Nodup :=
    (bucketKeys_perm interval logs).nodup_iff.mpr
      (logs.map (fun r => truncTs interval r.timestamp)).nodup_dedup
  exact (hle.and hnd).imp (fun h => h.1.resolve_right h.2)

/-- A bucket count is positive exactly on observed buckets. -/
theorem bucketCount_pos (interval : String) (logs : List Log) (d : Date)
    (h : ∃ r ∈ logs, truncTs interval r.timestamp = d) :
    0 < bucketCount interval logs d := by
  obtain ⟨r, hr, hd⟩ := h
  rw [bucketCount]
  have : r ∈ logs.filter (fun x => truncTs interval x.timestamp == d) := by
    rw [List.mem_filter]
    exact ⟨hr, by simp [hd]⟩
  exact List.length_pos.mpr (List.ne_nil_of_mem this)

/-! ### CSV round-trip lemmas -/

/-- A field that needs no quoting consists of non-stop chars. -/
theorem stopChar_false_of_not_needsQuote {f : String}
    (h : needsQuote f = false) : ∀ c ∈ f.data, stopChar c = false := by
  rw [needsQuote, List.any_eq_false] at h
  intro c hc
  have h1 := h c hc
  simp only [Bool.or_eq_true, decide_eq_true_eq, not_or] at h1
  rw [stopChar]
  simp only [Bool.or_eq_false_iff, decide_eq_false_iff_not]
  tauto

/-- Reading a written quoted field recovers the field and stops exactly at
the closing quote (provided what follows is not a quote char). -/
theorem parseQuoted_round (s : List Char) :
    ∀ rest cs : List Char, rest.head? ≠ some '"' →
    escField s ++ '"' :: rest = cs →
    ∃ hle, parseQuoted cs = some (s, ⟨rest, hle⟩) := by
  induction s with
  | nil =>
    intro rest cs h hcs
    match rest with
    | [] =>
      have hcs2 : cs = ['"'] := by rw [← hcs]; simp [escField]
      subst hcs2
      exact ⟨by simp, by simp [parseQuoted]⟩
    | c2 :: r2 =>
      have hc2 : ¬ c2 = '"' := by
        intro hx
        exact h (by rw [hx]; rfl)
      have hcs2 : cs = '"' :: c2 :: r2 := by rw [← hcs]; simp [escField]
      subst hcs2
      exact ⟨by simp, by simp [parseQuoted, hc2]⟩
  | cons c s' ih =>
    intro rest cs h hcs
    by_cases hc : c = '"'
    · subst hc
      have hcs2 : cs = '"' :: '"' :: (escField s' ++ '"' :: rest) := by
        rw [← hcs, escField, if_pos rfl]
        rfl
      subst hcs2
      obtain ⟨hle, heq⟩ := ih rest (escField s' ++ '"' :: rest) h rfl
      refine ⟨?_, ?_⟩
      · simp only [List.length_cons, List.length_append] at hle ⊢
        omega
      · simp [parseQuoted, heq]
    · obtain ⟨d, ds, hds⟩ : ∃ d ds, escField s' ++ '"' :: rest = d :: ds := by
        cases hE : escField s' with
        | nil => exact ⟨'"', rest, by simp⟩
        | cons x xs => exact ⟨x, xs ++ '"' :: rest, by simp⟩
      have hcs2 : cs = c :: d :: ds := by
        rw [← hcs, escField, if_neg hc, List.cons_append, hds]
      subst hcs2
      obtain ⟨hle, heq⟩ := ih rest (d :: ds) h hds
      refine ⟨?_, ?_⟩
      · simp only [List.length_cons] at hle ⊢
        omega
      · simp [parseQuoted, hc, heq]

/-- Reading a written unquoted field recovers the field and stops exactly at
the first stop char (or the end of input). -/
theorem parseUnquoted_round (s : List Char) :
    ∀ rest cs : List Char, (∀ c ∈ s, stopChar c = false) →
    (rest = [] ∨ ∃ c r2, rest = c :: r2 ∧ stopChar c = true) →
    s ++ rest = cs →
    ∃ hle, parseUnquoted cs = (s, ⟨rest, hle⟩) := by
  induction s with
  | nil =>
    intro rest cs _ hr hcs
    rcases hr with rfl | ⟨c, r2, rfl, hstop⟩
    · have hcs2 : cs = [] := by rw [← hcs]; rfl
      subst hcs2
      exact ⟨by simp, by simp [parseUnquoted]⟩
    · have hcs2 : cs = c :: r2 := by rw [← hcs]; rfl
      subst hcs2
      exact ⟨by simp, by simp [parseUnquoted, hstop]⟩
  | cons c s' ih =>
    intro rest cs hs hr hcs
    have hc : stopChar c = false := hs c (List.mem_cons_self c s')
    have hcs2 : cs = c :: (s' ++ rest) := by rw [← hcs]; rfl
    subst hcs2
    obtain ⟨hle, heq⟩ := ih rest (s' ++ rest)
      (fun x hx => hs x (List.mem_cons_of_mem c hx)) hr rfl
    refine ⟨?_, ?_⟩
    · simp only [List.length_cons, List.length_append] at hle ⊢
      omega
    · simp [parseUnquoted, hc, heq]

/-- Reading a written field recovers it, whatever its content, provided the
input continues with a delimiter, a CR, or ends. -/
theorem parseField_round (b : Bool) (f : String) (rest cs : List Char)
    (hr : rest = [] ∨ (∃ r2, rest = ',' :: r2) ∨ ∃ r2, rest = '\r' :: r2)
    (hcs : (encodeField b f).data ++ rest = cs) :
    ∃ hle, parseField cs = some (f, ⟨rest, hle⟩) := by
  have hhead : rest.head? ≠ some '"' := by
    rcases hr with rfl | ⟨r2, rfl⟩ | ⟨r2, rfl⟩ <;> simp
  have hstop : rest = [] ∨ ∃ c r2, rest = c :: r2 ∧ stopChar c = true := by
    rcases hr with rfl | ⟨r2, rfl⟩ | ⟨r2, rfl⟩
    · exact Or.inl rfl
    · exact Or.inr ⟨',', r2, rfl, by simp [stopChar]⟩
    · exact Or.inr ⟨'\r', r2, rfl, by simp [stopChar]⟩
  by_cases hq : (needsQuote f || (b && f == "")) = true
  · have hcs2 : cs = '"' :: (escField f.data ++ '"' :: rest) := by
      rw [← hcs, encodeField, if_pos hq]
      simp [String.data_append]
    subst hcs2
    obtain ⟨hle, heq⟩ :=
      parseQuoted_round f.data rest (escField f.data ++ '"' :: rest) hhead rfl
    refine ⟨?_, ?_⟩
    · simp only [List.length_cons, List.length_append] at hle ⊢
      omega
    · simp [parseField, heq]
  · have henc : encodeField b f = f := by rw [encodeField, if_neg hq]
    have hnq : needsQuote f = false := by
      rcases Bool.or_eq_false_iff.mp (Bool.eq_false_iff.mpr hq) with ⟨h1, -⟩
      exact h1
    have hall : ∀ c ∈ f.data, stopChar c = false :=
      stopChar_false_of_not_needsQuote hnq
    rw [henc] at hcs
    match hfd : f.data with
    | [] =>
      have hf : f = "" := by
        cases f with
        | mk d =>
          simp only at hfd
          rw [hfd]
      subst hf
      rcases hstop with rfl | ⟨c, r2, rfl, hcstop⟩
      · have hcs2 : cs = [] := by rw [← hcs]; rfl
        subst hcs2
        exact ⟨by simp, by simp [parseField]⟩
      · have hcq : ¬ c = '"' := by
          intro hx
          rw [hx] at hhead
          exact hhead rfl
        have hcs2 : cs = c :: r2 := by rw [← hcs]; rfl
        subst hcs2
        obtain ⟨hle, heq⟩ := parseUnquoted_round [] (c :: r2) (c :: r2)
          (by simp) (Or.inr ⟨c, r2, rfl, hcstop⟩) rfl
        refine ⟨by simp, ?_⟩
        simp only [parseField, if_neg hcq, heq]
        simp [hcq]
    | c0 :: fs =>
      have hc0 : stopChar c0 = false := hall c0 (by rw [hfd]; exact List.mem_cons_self c0 fs)
      have hc0q : ¬ c0 = '"' := by
        intro hx
        rw [hx, stopChar] at hc0
        simp at hc0
      have hcs2 : cs = c0 :: (fs ++ rest) := by rw [← hcs, hfd]; rfl
      subst hcs2
      obtain ⟨hle, heq⟩ := parseUnquoted_round (c0 :: fs) rest
        (c0 :: (fs ++ rest)) (fun c hcmem => hall c (by rw [hfd]; exact hcmem))
        hstop rfl
      have hhead2 : rest.head? ≠ some '"' := hhead
      refine ⟨?_, ?_⟩
      · simp only [List.length_cons, List.length_append] at hle ⊢
        omega
      · have hmk : String.mk (c0 :: fs) = f := by
          rw [← hfd]
        simp only [parseField, if_neg hc0q, heq]
        simp only [hmk]
        rcases hr with rfl | ⟨r2, rfl⟩ | ⟨r2, rfl⟩ <;> simp

/-- Reading a written record recovers its field list and stops at the line
terminator. -/
theorem parseRecord_round (b : Bool) (fs : List String) :
    ∀ rest cs : List Char, fs ≠ [] → rest.head? = some '\r' →
    (joinFields b fs).data ++ rest = cs →
    ∃ hle, parseRecord cs = some (fs, ⟨rest, hle⟩) := by
  induction fs with
  | nil => intro rest cs hfs _ _; exact absurd rfl hfs
  | cons f fs' ih =>
    intro rest cs _ hr hcs
    obtain ⟨r2, rfl⟩ : ∃ r2, rest = '\r' :: r2 := by
      match rest with
      | [] => simp at hr
      | c :: r2 =>
        simp only [List.head?_cons, Option.some.injEq] at hr
        exact ⟨r2, by rw [hr]⟩
    match fs' with
    | [] =>
      obtain ⟨hle, heq⟩ := parseField_round b f ('\r' :: r2) cs
        (Or.inr (Or.inr ⟨r2, rfl⟩)) hcs
      refine ⟨hle, ?_⟩
      rw [parseRecord, heq]
      simp
    | f2 :: fs'' =>
      have hcs2 : (encodeField b f).data ++
          (',' :: ((joinFields b (f2 :: fs'')).data ++ '\r' :: r2)) = cs := by
        rw [← hcs]
        rw [show joinFields b (f :: f2 :: fs'') =
          encodeField b f ++ "," ++ joinFields b (f2 :: fs'') from rfl]
        simp [String.data_append]
      obtain ⟨hle1, heq1⟩ := parseField_round b f
        (',' :: ((joinFields b (f2 :: fs'')).data ++ '\r' :: r2)) cs
        (Or.inr (Or.inl ⟨_, rfl⟩)) hcs2
      obtain ⟨hle2, heq2⟩ := ih ('\r' :: r2)
        ((joinFields b (f2 :: fs'')).data ++ '\r' :: r2) (by simp) rfl rfl
      refine ⟨?_, ?_⟩
      · simp only [List.length_cons] at hle1
        omega
      · rw [parseRecord, heq1]
        simp [heq2]

/-- One unfolding step of the document reader. -/
theorem parseRecords_step (cs cs2 : List Char) (row : List String)
    (rows' : List (List String)) (hcs : cs ≠ [])
    (hrec : ∃ hle : ('\r' :: '\n' :: cs2).length ≤ cs.length,
      parseRecord cs = some (row, ⟨'\r' :: '\n' :: cs2, hle⟩))
    (hrest : parseRecords cs2 = some rows') :
    parseRecords cs = some (row :: rows') := by
  obtain ⟨c0, cs0, rfl⟩ : ∃ c0 cs0, cs = c0 :: cs0 := by
    match cs with
    | [] => exact absurd rfl hcs
    | c0 :: cs0 => exact ⟨c0, cs0, rfl⟩
  obtain ⟨hle, heq⟩ := hrec
  rw [parseRecords, heq]
  simp [hrest]

/-- Reading back the written document recovers every row in order. -/
theorem parseRecords_round (rows : List (List String))
    (h : ∀ row ∈ rows, row ≠ []) :
    parseRecords (csvLines rows).data = some rows := by
  induction rows with
  | nil => simp [csvLines, parseRecords]
  | cons row rows' ih =>
    have hrow : row ≠ [] := h row (List.mem_cons_self row rows')
    have hdata : (csvLines (row :: rows')).data =
        (joinFields (decide (row.length = 1)) row).data ++
          ('\r' :: '\n' :: (csvLines rows').data) := by
      rw [show csvLines (row :: rows') = writeRow row ++ csvLines rows' from rfl,
        writeRow]
      simp [String.data_append]
    rw [hdata]
    obtain ⟨hle, heq⟩ := parseRecord_round (decide (row.length = 1)) row
      ('\r' :: '\n' :: (csvLines rows').data)
      ((joinFields (decide (row.length = 1)) row).data ++
        ('\r' :: '\n' :: (csvLines rows').data)) hrow rfl rfl
    exact parseRecords_step _ ((csvLines rows').data) row rows'
      (by simp) ⟨hle, heq⟩ (ih (fun r hr => h r (List.mem_cons_of_mem row hr)))

/-! ## The claims -/

/-- **C1.** `group_by=date` buckets each record's timestamp by truncation to
the start of its calendar day (`interval=day`) or calendar month
(`interval=month`); the response holds one `(ISO bucket date, count)` entry
per non-empty bucket, counts equal to the bucket populations, entries
strictly ascending by bucket start, and no zero-count entry. -/
theorem aggregated_date_buckets (logs : List Log) (interval : String)
    (h : interval = "day" ∨ interval = "month") :
    (∀ t : DateTime, truncTs "day" t = ⟨t.year, t.month, t.day⟩) ∧
    (∀ t : DateTime, truncTs "month" t = ⟨t.year, t.month, 1⟩) ∧
    (∀ e ∈ aggregatedDate interval logs,
      e.2 = bucketCount interval logs e.1 ∧ 0 < e.2) ∧
    (∀ d : Date, (∃ r ∈ logs, truncTs interval r.timestamp = d) →
      (d, bucketCount interval logs d) ∈ aggregatedDate interval logs) ∧
    (aggregatedDate interval logs).Pairwise (fun e1 e2 => dateLt e1.1 e2.1) ∧
    ((aggregatedDate interval logs).map Prod.fst).Nodup ∧
    aggregatedDateJson interval logs =
      (aggregatedDate interval logs).map (fun e => (isoDate e.1, e.2)) ∧
    aggregated "date" interval logs =
      .byDate (aggregatedDateJson interval logs) := by
  refine ⟨fun t => by simp [truncTs], fun t => by simp [truncTs], ?_, ?_, ?_, ?_, rfl, by simp [aggregated]⟩
  · intro e he
    simp only [aggregatedDate, List.mem_map] at he
    obtain ⟨d, hd, rfl⟩ := he
    exact ⟨rfl, bucketCount_pos interval logs d
      ((mem_bucketKeys interval logs d).mp hd)⟩
  · intro d hd
    simp only [aggregatedDate, List.mem_map]
    exact ⟨d, (mem_bucketKeys interval logs d).mpr hd, rfl⟩
  · rw [aggregatedDate, List.pairwise_map]
    exact bucketKeys_sorted interval logs
  · have : (aggregatedDate interval logs).map Prod.fst =
        bucketKeys interval logs := by
      simp [aggregatedDate, List.map_map, Function.comp_def]
    rw [this]
    exact (bucketKeys_perm interval logs).nodup_iff.mpr
      (logs.map (fun r => truncTs interval r.timestamp)).nodup_dedup

/-- **C1 witness**: the spec's worked example — three records on 2024-01-01
(×2) and 2024-01-02 (×1). -/
theorem aggregated_date_buckets_witness :
    ("day" = "day" ∨ ("day" : String) = "month") ∧
    ((∀ t : DateTime, truncTs "day" t = ⟨t.year, t.month, t.day⟩) ∧
    (∀ t : DateTime, truncTs "month" t = ⟨t.year, t.month, 1⟩) ∧
    (∀ e ∈ aggregatedDate "day"
        [⟨1, ⟨2024, 1, 1, 10, 0, 0⟩, "err A", "ERROR", "svc1"⟩,
         ⟨2, ⟨2024, 1, 1, 12, 0, 0⟩, "ok B", "INFO", "svc2"⟩,
         ⟨3, ⟨2024, 1, 2, 9, 0, 0⟩, "err C", "ERROR", "svc1"⟩],
      e.2 = bucketCount "day"
        [⟨1, ⟨2024, 1, 1, 10, 0, 0⟩, "err A", "ERROR", "svc1"⟩,
         ⟨2, ⟨2024, 1, 1, 12, 0, 0⟩, "ok B", "INFO", "svc2"⟩,
         ⟨3, ⟨2024, 1, 2, 9, 0, 0⟩, "err C", "ERROR", "svc1"⟩] e.1 ∧
        0 < e.2) ∧
    (∀ d : Date, (∃ r ∈
        [⟨1, ⟨2024, 1, 1, 10, 0, 0⟩, "err A", "ERROR", "svc1"⟩,
         ⟨2, ⟨2024, 1, 1, 12, 0, 0⟩, "ok B", "INFO", "svc2"⟩,
         ⟨3, ⟨2024, 1, 2, 9, 0, 0⟩, "err C", "ERROR", "svc1"⟩],
        truncTs "day" (Log.timestamp r) = d) →
      (d, bucketCount "day"
        [⟨1, ⟨2024, 1, 1, 10, 0, 0⟩, "err A", "ERROR", "svc1"⟩,
         ⟨2, ⟨2024, 1, 1, 12, 0, 0⟩, "ok B", "INFO", "svc2"⟩,
         ⟨3, ⟨2024, 1, 2, 9, 0, 0⟩, "err C", "ERROR", "svc1"⟩] d) ∈
        aggregatedDate "day"
        [⟨1, ⟨2024, 1, 1, 10, 0, 0⟩, "err A", "ERROR", "svc1"⟩,
         ⟨2, ⟨2024, 1, 1, 12, 0, 0⟩, "ok B", "INFO", "svc2"⟩,
         ⟨3, ⟨2024, 1, 2, 9, 0, 0⟩, "err C", "ERROR", "svc1"⟩]) ∧
    (aggregatedDate "day"
        [⟨1, ⟨2024, 1, 1, 10, 0, 0⟩, "err A", "ERROR", "svc1"⟩,
         ⟨2, ⟨2024, 1, 1, 12, 0, 0⟩, "ok B", "INFO", "svc2"⟩,
         ⟨3, ⟨2024, 1, 2, 9, 0, 0⟩, "err C", "ERROR", "svc1"⟩]).Pairwise
      (fun e1 e2 => dateLt e1.1 e2.1) ∧
    ((aggregatedDate "day"
        [⟨1, ⟨2024, 1, 1, 10, 0, 0⟩, "err A", "ERROR", "svc1"⟩,
         ⟨2, ⟨2024, 1, 1, 12, 0, 0⟩, "ok B", "INFO", "svc2"⟩,
         ⟨3, ⟨2024, 1, 2, 9, 0, 0⟩, "err C", "ERROR", "svc1"⟩]).map
      Prod.fst).Nodup ∧
    aggregatedDateJson "day"
        [⟨1, ⟨2024, 1, 1, 10, 0, 0⟩, "err A", "ERROR", "svc1"⟩,
         ⟨2, ⟨2024, 1, 1, 12, 0, 0⟩, "ok B", "INFO", "svc2"⟩,
         ⟨3, ⟨2024, 1, 2, 9, 0, 0⟩, "err C", "ERROR", "svc1"⟩] =
      (aggregatedDate "day"
        [⟨1, ⟨2024, 1, 1, 10, 0, 0⟩, "err A", "ERROR", "svc1"⟩,
         ⟨2, ⟨2024, 1, 1, 12, 0, 0⟩, "ok B", "INFO", "svc2"⟩,
         ⟨3, ⟨2024, 1, 2, 9, 0, 0⟩, "err C", "ERROR", "svc1"⟩]).map
        (fun e => (isoDate e.1, e.2)) ∧
    aggregated "date" "day"
        [⟨1, ⟨2024, 1, 1, 10, 0, 0⟩, "err A", "ERROR", "svc1"⟩,
         ⟨2, ⟨2024, 1, 1, 12, 0, 0⟩, "ok B", "INFO", "svc2"⟩,
         ⟨3, ⟨2024, 1, 2, 9, 0, 0⟩, "err C", "ERROR", "svc1"⟩] =
      .byDate (aggregatedDateJson "day"
        [⟨1, ⟨2024, 1, 1, 10, 0, 0⟩, "err A", "ERROR", "svc1"⟩,
         ⟨2, ⟨2024, 1, 1, 12, 0, 0⟩, "ok B", "INFO", "svc2"⟩,
         ⟨3, ⟨2024, 1, 2, 9, 0, 0⟩, "err C", "ERROR", "svc1"⟩])) :=
  ⟨Or.inl rfl, aggregated_date_buckets _ "day" (Or.inl rfl)⟩

/-- **C2.** `group_by=severity` emits exactly one `(severity, count)` entry
per severity present in the filtered set, sorted by descending count; the
counts sum to the total and absent severities are not emitted. -/
theorem aggregated_severity_counts (logs : List Log) (interval : String) :
    (∀ s : String, s ∈ (groupCounts (fun r => r.severity) logs).map Prod.fst ↔
      ∃ r ∈ logs, r.severity = s) ∧
    ((groupCounts (fun r => r.severity) logs).map Prod.fst).Nodup ∧
    (∀ e ∈ groupCounts (fun r => r.severity) logs,
      e.2 = countKey (fun r => r.severity) logs e.1) ∧
    (groupCounts (fun r => r.severity) logs).Pairwise
      (fun e1 e2 => e2.2 ≤ e1.2) ∧
    ((groupCounts (fun r => r.severity) logs).map Prod.snd).sum =
      logs.length ∧
    aggregated "severity" interval logs =
      .byKey "severity" (groupCounts (fun r => r.severity) logs) :=
  ⟨groupCounts_keys_mem _ logs,
   groupCounts_keys_nodup _ logs,
   groupCounts_snd _ logs,
   groupCounts_sorted _ logs,
   groupCounts_sum _ logs,
   by simp [aggregated]⟩

/-- **C2 witness**: on the worked example, the emitted severity counts sum
to the record total and `DEBUG` (absent) is not emitted. -/
theorem aggregated_severity_counts_witness :
    ((groupCounts (fun r => r.severity)
        [⟨1, ⟨2024, 1, 1, 10, 0, 0⟩, "err A", "ERROR", "svc1"⟩,
         ⟨2, ⟨2024, 1, 1, 12, 0, 0⟩, "ok B", "INFO", "svc2"⟩,
         ⟨3, ⟨2024, 1, 2, 9, 0, 0⟩, "err C", "ERROR", "svc1"⟩]).map
      Prod.snd).sum = 3 ∧
    ¬ ("DEBUG" ∈ (groupCounts (fun r => r.severity)
        [⟨1, ⟨2024, 1, 1, 10, 0, 0⟩, "err A", "ERROR", "svc1"⟩,
         ⟨2, ⟨2024, 1, 1, 12, 0, 0⟩, "ok B", "INFO", "svc2"⟩,
         ⟨3, ⟨2024, 1, 2, 9, 0, 0⟩, "err C", "ERROR", "svc1"⟩]).map
      Prod.fst) := by
  refine ⟨(aggregated_severity_counts
    [⟨1, ⟨2024, 1, 1, 10, 0, 0⟩, "err A", "ERROR", "svc1"⟩,
     ⟨2, ⟨2024, 1, 1, 12, 0, 0⟩, "ok B", "INFO", "svc2"⟩,
     ⟨3, ⟨2024, 1, 2, 9, 0, 0⟩, "err C", "ERROR", "svc1"⟩] "day").2.2.2.2.1, ?_⟩
  intro hmem
  have h := ((aggregated_severity_counts
    [⟨1, ⟨2024, 1, 1, 10, 0, 0⟩, "err A", "ERROR", "svc1"⟩,
     ⟨2, ⟨2024, 1, 1, 12, 0, 0⟩, "ok B", "INFO", "svc2"⟩,
     ⟨3, ⟨2024, 1, 2, 9, 0, 0⟩, "err C", "ERROR", "svc1"⟩] "day").1
    "DEBUG").mp hmem
  revert h
  decide

/-- **C3.** Any `group_by` value other than `date` and `severity` behaves
exactly as `group_by=source`: the response is the per-source counts, sorted
by descending count. -/
theorem aggregated_unknown_group_by (g i : String) (logs : List Log)
    (h1 : g ≠ "date") (h2 : g ≠ "severity") :
    aggregated g i logs = aggregated "source" i logs ∧
    aggregated g i logs =
      .byKey "source" (groupCounts (fun r => r.source) logs) ∧
    (∀ s : String, s ∈ (groupCounts (fun r => r.source) logs).map Prod.fst ↔
      ∃ r ∈ logs, r.source = s) ∧
    (∀ e ∈ groupCounts (fun r => r.source) logs,
      e.2 = countKey (fun r => r.source) logs e.1) ∧
    (groupCounts (fun r => r.source) logs).Pairwise
      (fun e1 e2 => e2.2 ≤ e1.2) :=
  ⟨by simp [aggregated, h1, h2],
   by simp [aggregated, h1, h2],
   groupCounts_keys_mem _ logs,
   groupCounts_snd _ logs,
   groupCounts_sorted _ logs⟩

/-- **C3 witness**: `group_by=foo` on the worked example equals
`group_by=source`. -/
theorem aggregated_unknown_group_by_witness :
    ("foo" : String) ≠ "date" ∧ ("foo" : String) ≠ "severity" ∧
    aggregated "foo" "day"
        [⟨1, ⟨2024, 1, 1, 10, 0, 0⟩, "err A", "ERROR", "svc1"⟩,
         ⟨2, ⟨2024, 1, 1, 12, 0, 0⟩, "ok B", "INFO", "svc2"⟩,
         ⟨3, ⟨2024, 1, 2, 9, 0, 0⟩, "err C", "ERROR", "svc1"⟩] =
      aggregated "source" "day"
        [⟨1, ⟨2024, 1, 1, 10, 0, 0⟩, "err A", "ERROR", "svc1"⟩,
         ⟨2, ⟨2024, 1, 1, 12, 0, 0⟩, "ok B", "INFO", "svc2"⟩,
         ⟨3, ⟨2024, 1, 2, 9, 0, 0⟩, "err C", "ERROR", "svc1"⟩] :=
  ⟨by decide, by decide,
   (aggregated_unknown_group_by "foo" "day"
     [⟨1, ⟨2024, 1, 1, 10, 0, 0⟩, "err A", "ERROR", "svc1"⟩,
      ⟨2, ⟨2024, 1, 1, 12, 0, 0⟩, "ok B", "INFO", "svc2"⟩,
      ⟨3, ⟨2024, 1, 2, 9, 0, 0⟩, "err C", "ERROR", "svc1"⟩]
     (by decide) (by decide)).1⟩

/-- **C10.** Day bucketing happens exactly when `interval` is the literal
string `"day"` (also the default when the parameter is absent); every other
value — `"week"`, the empty string, anything else — selects month
bucketing. -/
theorem aggregated_interval_dispatch (i : String) (t : DateTime)
    (p : AggParams) (logs : List Log) (h : i ≠ "day") :
    truncTs "day" t = ⟨t.year, t.month, t.day⟩ ∧
    truncTs i t = ⟨t.year, t.month, 1⟩ ∧
    truncTs "week" t = ⟨t.year, t.month, 1⟩ ∧
    truncTs "" t = ⟨t.year, t.month, 1⟩ ∧
    aggregatedEndpoint ⟨p.group_by, none⟩ logs =
      aggregatedEndpoint ⟨p.group_by, some "day"⟩ logs :=
  ⟨by simp [truncTs], by simp [truncTs, h], by simp [truncTs],
   by simp [truncTs], rfl⟩

/-- **C10 witness**: `interval=week` at a concrete timestamp is bucketed by
month. -/
theorem aggregated_interval_dispatch_witness :
    ("week" : String) ≠ "day" ∧
    (truncTs "day" ⟨2024, 5, 17, 8, 30, 0⟩ = ⟨2024, 5, 17⟩ ∧
     truncTs "week" ⟨2024, 5, 17, 8, 30, 0⟩ = ⟨2024, 5, 1⟩ ∧
     truncTs "week" ⟨2024, 5, 17, 8, 30, 0⟩ = ⟨2024, 5, 1⟩ ∧
     truncTs "" ⟨2024, 5, 17, 8, 30, 0⟩ = ⟨2024, 5, 1⟩ ∧
     aggregatedEndpoint ⟨some "severity", none⟩ [] =
       aggregatedEndpoint ⟨some "severity", some "day"⟩ []) :=
  ⟨by decide,
   aggregated_interval_dispatch "week" ⟨2024, 5, 17, 8, 30, 0⟩
     ⟨some "severity", none⟩ [] (by decide)⟩

/-- **C6.** With `date_from=a` and `date_to=b`, every returned record
satisfies `a ≤ timestamp ≤ b` at full date-time precision (whatever other
filters are active); with only the range active, a record is returned iff
it is stored and in range, and boundary-exact timestamps are included. -/
theorem filter_date_range (a b : DateTime) (q : FilterQuery)
    (logs : List Log) (r : Log)
    (hqa : q.date_from = some a) (hqb : q.date_to = some b) :
    (r ∈ filteredLogs q logs → dtLe a r.timestamp ∧ dtLe r.timestamp b) ∧
    (r ∈ filteredLogs (rangeQuery a b) logs ↔
      r ∈ logs ∧ dtLe a r.timestamp ∧ dtLe r.timestamp b) ∧
    (r ∈ logs → r.timestamp = a → dtLe a b →
      r ∈ filteredLogs (rangeQuery a b) logs) ∧
    (r ∈ logs → r.timestamp = b → dtLe a b →
      r ∈ filteredLogs (rangeQuery a b) logs) := by
  have hrange : ∀ s : Log, s ∈ filteredLogs (rangeQuery a b) logs ↔
      s ∈ logs ∧ dtLe a s.timestamp ∧ dtLe s.timestamp b := by
    intro s
    rw [mem_filteredLogs]
    simp [filtersetPred, searchPred, rangeQuery]
  refine ⟨?_, hrange r, ?_, ?_⟩
  · intro hmem
    have h := (mem_filteredLogs.mp hmem).2.1
    rw [filtersetPred, hqa, hqb] at h
    simp only [Bool.and_eq_true, decide_eq_true_eq] at h
    exact ⟨h.1.2, h.2⟩
  · intro hl hts hab
    exact (hrange r).mpr ⟨hl, hts ▸ dtLe_refl a, hts ▸ hab⟩
  · intro hl hts hab
    exact (hrange r).mpr ⟨hl, hts ▸ hab, hts ▸ dtLe_refl b⟩

/-- **C6 witness**: a record whose timestamp equals the lower bound exactly
is returned; the upper bound behaves alike. -/
theorem filter_date_range_witness :
    (rangeQuery ⟨2024, 1, 1, 10, 0, 0⟩ ⟨2024, 1, 2, 9, 0, 0⟩).date_from =
      some ⟨2024, 1, 1, 10, 0, 0⟩ ∧
    (rangeQuery ⟨2024, 1, 1, 10, 0, 0⟩ ⟨2024, 1, 2, 9, 0, 0⟩).date_to =
      some ⟨2024, 1, 2, 9, 0, 0⟩ ∧
    (⟨1, ⟨2024, 1, 1, 10, 0, 0⟩, "err A", "ERROR", "svc1"⟩ : Log) ∈
      [⟨1, ⟨2024, 1, 1, 10, 0, 0⟩, "err A", "ERROR", "svc1"⟩] ∧
    Log.timestamp ⟨1, ⟨2024, 1, 1, 10, 0, 0⟩, "err A", "ERROR", "svc1"⟩ =
      ⟨2024, 1, 1, 10, 0, 0⟩ ∧
    dtLe ⟨2024, 1, 1, 10, 0, 0⟩ ⟨2024, 1, 2, 9, 0, 0⟩ ∧
    (⟨1, ⟨2024, 1, 1, 10, 0, 0⟩, "err A", "ERROR", "svc1"⟩ : Log) ∈
      filteredLogs (rangeQuery ⟨2024, 1, 1, 10, 0, 0⟩ ⟨2024, 1, 2, 9, 0, 0⟩)
        [⟨1, ⟨2024, 1, 1, 10, 0, 0⟩, "err A", "ERROR", "svc1"⟩] := by
  refine ⟨rfl, rfl, by decide, rfl, by decide, ?_⟩
  exact (filter_date_range ⟨2024, 1, 1, 10, 0, 0⟩ ⟨2024, 1, 2, 9, 0, 0⟩
    (rangeQuery ⟨2024, 1, 1, 10, 0, 0⟩ ⟨2024, 1, 2, 9, 0, 0⟩)
    [⟨1, ⟨2024, 1, 1, 10, 0, 0⟩, "err A", "ERROR", "svc1"⟩]
    ⟨1, ⟨2024, 1, 1, 10, 0, 0⟩, "err A", "ERROR", "svc1"⟩
    rfl rfl).2.2.1 (by decide) rfl (by decide)

/-- **C7.** The free-text search selects a record iff the term occurs
case-insensitively as a substring of its message OR of its source; a record
matching neither is excluded, and the search constraint conjoins with the
filterset constraints. -/
theorem filter_search (t : String) (q : FilterQuery) (logs : List Log)
    (r : Log) (hq : q.search = some t) :
    (r ∈ filteredLogs q logs ↔
      r ∈ logs ∧ filtersetPred q r = true ∧
        (containsCI t r.message ∨ containsCI t r.source)) ∧
    (r ∈ filteredLogs (searchQuery t) logs ↔
      r ∈ logs ∧ (containsCI t r.message ∨ containsCI t r.source)) := by
  constructor
  · rw [mem_filteredLogs, searchPred, hq]
    simp
  · rw [mem_filteredLogs]
    simp [filtersetPred, searchPred, searchQuery]

/-- **C7 witness**: the term `ERR` matches `err C` in the message,
case-insensitively, and the non-matching record `ok B`/`svc2` is
excluded. -/
theorem filter_search_witness :
    (searchQuery "ERR").search = some "ERR" ∧
    ((⟨3, ⟨2024, 1, 2, 9, 0, 0⟩, "err C", "ERROR", "svc1"⟩ : Log) ∈
      filteredLogs (searchQuery "ERR")
        [⟨2, ⟨2024, 1, 1, 12, 0, 0⟩, "ok B", "INFO", "svc2"⟩,
         ⟨3, ⟨2024, 1, 2, 9, 0, 0⟩, "err C", "ERROR", "svc1"⟩] ↔
      (⟨3, ⟨2024, 1, 2, 9, 0, 0⟩, "err C", "ERROR", "svc1"⟩ : Log) ∈
        [⟨2, ⟨2024, 1, 1, 12, 0, 0⟩, "ok B", "INFO", "svc2"⟩,
         ⟨3, ⟨2024, 1, 2, 9, 0, 0⟩, "err C", "ERROR", "svc1"⟩] ∧
      (containsCI "ERR" "err C" ∨ containsCI "ERR" "svc1")) ∧
    (⟨3, ⟨2024, 1, 2, 9, 0, 0⟩, "err C", "ERROR", "svc1"⟩ : Log) ∈
      filteredLogs (searchQuery "ERR")
        [⟨2, ⟨2024, 1, 1, 12, 0, 0⟩, "ok B", "INFO", "svc2"⟩,
         ⟨3, ⟨2024, 1, 2, 9, 0, 0⟩, "err C", "ERROR", "svc1"⟩] ∧
    (⟨2, ⟨2024, 1, 1, 12, 0, 0⟩, "ok B", "INFO", "svc2"⟩ : Log) ∉
      filteredLogs (searchQuery "ERR")
        [⟨2, ⟨2024, 1, 1, 12, 0, 0⟩, "ok B", "INFO", "svc2"⟩,
         ⟨3, ⟨2024, 1, 2, 9, 0, 0⟩, "err C", "ERROR", "svc1"⟩] := by
  refine ⟨rfl,
    (filter_search "ERR" (searchQuery "ERR")
      [⟨2, ⟨2024, 1, 1, 12, 0, 0⟩, "ok B", "INFO", "svc2"⟩,
       ⟨3, ⟨2024, 1, 2, 9, 0, 0⟩, "err C", "ERROR", "svc1"⟩]
      ⟨3, ⟨2024, 1, 2, 9, 0, 0⟩, "err C", "ERROR", "svc1"⟩ rfl).2, ?_, ?_⟩
  · exact (filter_search "ERR" (searchQuery "ERR")
      [⟨2, ⟨2024, 1, 1, 12, 0, 0⟩, "ok B", "INFO", "svc2"⟩,
       ⟨3, ⟨2024, 1, 2, 9, 0, 0⟩, "err C", "ERROR", "svc1"⟩]
      ⟨3, ⟨2024, 1, 2, 9, 0, 0⟩, "err C", "ERROR", "svc1"⟩ rfl).2.mpr
      ⟨by decide, Or.inl (by decide)⟩
  · intro hmem
    have h := ((filter_search "ERR" (searchQuery "ERR")
      [⟨2, ⟨2024, 1, 1, 12, 0, 0⟩, "ok B", "INFO", "svc2"⟩,
       ⟨3, ⟨2024, 1, 2, 9, 0, 0⟩, "err C", "ERROR", "svc1"⟩]
      ⟨2, ⟨2024, 1, 1, 12, 0, 0⟩, "ok B", "INFO", "svc2"⟩ rfl).2.mp hmem).2
    revert h
    decide

/-- **C8.** For distinct users `u ≠ v`, every preference operation is scoped
to the caller: `u`'s list holds only `u`'s rows and never `v`'s (even with
equal names), and retrieve/update/delete aimed at `v`'s row by id answer
not-found — not forbidden — and leave the store unchanged. -/
theorem pref_user_scoping (u v : Nat) (store : List Pref) (p : Pref)
    (newName : String) (huv : u ≠ v) (hp : p ∈ store) (hpu : p.user = v)
    (hids : (store.map (fun x => x.id)).Nodup) :
    (∀ x ∈ listPrefs u store, x.user = u) ∧
    p ∉ listPrefs u store ∧
    retrievePref u p.id store = .error .notFound ∧
    updatePref u p.id newName store = (.error .notFound, store) ∧
    deletePref u p.id store = (.error .notFound, store) := by
  have hscoped : ∀ x ∈ prefQueryset u store, x.user = u := by
    intro x hx
    have := (List.mem_filter.mp hx).2
    simpa using this
  have hnone : ∀ x ∈ prefQueryset u store, ¬ (x.id == p.id) = true := by
    intro x hx hxid
    have hxu : x.user = u := hscoped x hx
    have hxs : x ∈ store := (List.mem_filter.mp hx).1
    have hxp : x = p :=
      List.inj_on_of_nodup_map hids hxs hp (by simpa using hxid)
    apply huv
    rw [← hxu, hxp, hpu]
  have hfind : (prefQueryset u store).find? (fun x => x.id == p.id) = none :=
    List.find?_eq_none.mpr hnone
  refine ⟨hscoped, ?_, ?_, ?_, ?_⟩
  · intro hmem
    apply huv
    rw [← hscoped p hmem, hpu]
  · rw [retrievePref, hfind]
  · rw [updatePref, hfind]
  · rw [deletePref, if_neg]
    simp only [List.any_eq_true, not_exists, not_and]
    intro x hx
    exact fun h => hnone x hx h

/-- **C8 witness**: two users own a preference named `daily errors`; user 1
cannot list, retrieve, update or delete user 2's row. -/
theorem pref_user_scoping_witness :
    (1 : Nat) ≠ 2 ∧
    (⟨11, 2, "daily errors", "ERROR", "", none, none⟩ : Pref) ∈
      [(⟨10, 1, "daily errors", "ERROR", "", none, none⟩ : Pref),
       ⟨11, 2, "daily errors", "ERROR", "", none, none⟩] ∧
    Pref.user ⟨11, 2, "daily errors", "ERROR", "", none, none⟩ = 2 ∧
    (([(⟨10, 1, "daily errors", "ERROR", "", none, none⟩ : Pref),
       ⟨11, 2, "daily errors", "ERROR", "", none, none⟩]).map
      (fun x => x.id)).Nodup ∧
    ((∀ x ∈ listPrefs 1
        [(⟨10, 1, "daily errors", "ERROR", "", none, none⟩ : Pref),
         ⟨11, 2, "daily errors", "ERROR", "", none, none⟩], x.user = 1) ∧
     (⟨11, 2, "daily errors", "ERROR", "", none, none⟩ : Pref) ∉
       listPrefs 1
        [(⟨10, 1, "daily errors", "ERROR", "", none, none⟩ : Pref),
         ⟨11, 2, "daily errors", "ERROR", "", none, none⟩] ∧
     retrievePref 1 11
        [(⟨10, 1, "daily errors", "ERROR", "", none, none⟩ : Pref),
         ⟨11, 2, "daily errors", "ERROR", "", none, none⟩] =
       .error .notFound ∧
     updatePref 1 11 "renamed"
        [(⟨10, 1, "daily errors", "ERROR", "", none, none⟩ : Pref),
         ⟨11, 2, "daily errors", "ERROR", "", none, none⟩] =
       (.error .notFound,
        [(⟨10, 1, "daily errors", "ERROR", "", none, none⟩ : Pref),
         ⟨11, 2, "daily errors", "ERROR", "", none, none⟩]) ∧
     deletePref 1 11
        [(⟨10, 1, "daily errors", "ERROR", "", none, none⟩ : Pref),
         ⟨11, 2, "daily errors", "ERROR", "", none, none⟩] =
       (.error .notFound,
        [(⟨10, 1, "daily errors", "ERROR", "", none, none⟩ : Pref),
         ⟨11, 2, "daily errors", "ERROR", "", none, none⟩])) :=
  ⟨by decide, by decide, rfl, by decide,
   pref_user_scoping 1 2
     [⟨10, 1, "daily errors", "ERROR", "", none, none⟩,
      ⟨11, 2, "daily errors", "ERROR", "", none, none⟩]
     ⟨11, 2, "daily errors", "ERROR", "", none, none⟩
     "renamed" (by decide) (by decide) rfl (by decide)⟩

/-- **C9.** Creating a preference fails with a uniqueness violation — and
leaves the store unchanged — when the caller already owns one of that name;
the very same name succeeds for a user who owns none. -/
theorem pref_create_uniqueness (u v : Nat) (n sev src : String)
    (df dt : Option Date) (store : List Pref)
    (hu : ∃ p ∈ store, p.user = u ∧ p.name = n)
    (hv : ¬ ∃ p ∈ store, p.user = v ∧ p.name = n) :
    (createPref u n sev src df dt store).1 = .error .uniqueViolation ∧
    (createPref u n sev src df dt store).2 = store ∧
    ∃ p' : Pref, (createPref v n sev src df dt store).1 = .ok p' ∧
      p'.user = v ∧ p'.name = n ∧
      (createPref v n sev src df dt store).2 = p' :: store := by
  have hany : store.any (fun p => p.user == u && p.name == n) = true := by
    rw [List.any_eq_true]
    obtain ⟨p, hp, hpu, hpn⟩ := hu
    exact ⟨p, hp, by simp [hpu, hpn]⟩
  have hnot : store.any (fun p => p.user == v && p.name == n) = false := by
    rw [Bool.eq_false_iff]
    intro hc
    obtain ⟨p, hp, hpc⟩ := List.any_eq_true.mp hc
    simp only [Bool.and_eq_true, beq_iff_eq] at hpc
    exact hv ⟨p, hp, hpc⟩
  refine ⟨?_, ?_, ?_⟩
  · rw [createPref, if_pos hany]
  · rw [createPref, if_pos hany]
  · refine ⟨⟨freshId store, v, n, sev, src, df, dt⟩, ?_, rfl, rfl, ?_⟩
    · rw [createPref, if_neg (by rw [hnot]; exact Bool.false_ne_true)]
    · rw [createPref, if_neg (by rw [hnot]; exact Bool.false_ne_true)]

/-- **C9 witness**: user 1 re-creating `daily errors` fails and changes
nothing; user 2 creating `daily errors` succeeds. -/
theorem pref_create_uniqueness_witness :
    (∃ p ∈ [(⟨10, 1, "daily errors", "ERROR", "", none, none⟩ : Pref)],
      p.user = 1 ∧ p.name = "daily errors") ∧
    (¬ ∃ p ∈ [(⟨10, 1, "daily errors", "ERROR", "", none, none⟩ : Pref)],
      p.user = 2 ∧ p.name = "daily errors") ∧
    ((createPref 1 "daily errors" "" "" none none
        [(⟨10, 1, "daily errors", "ERROR", "", none, none⟩ : Pref)]).1 =
      .error .uniqueViolation ∧
     (createPref 1 "daily errors" "" "" none none
        [(⟨10, 1, "daily errors", "ERROR", "", none, none⟩ : Pref)]).2 =
      [(⟨10, 1, "daily errors", "ERROR", "", none, none⟩ : Pref)] ∧
     ∃ p' : Pref, (createPref 2 "daily errors" "" "" none none
        [(⟨10, 1, "daily errors", "ERROR", "", none, none⟩ : Pref)]).1 =
        .ok p' ∧ p'.user = 2 ∧ p'.name = "daily errors" ∧
        (createPref 2 "daily errors" "" "" none none
          [(⟨10, 1, "daily errors", "ERROR", "", none, none⟩ : Pref)]).2 =
        p' :: [(⟨10, 1, "daily errors", "ERROR", "", none, none⟩ : Pref)]) :=
  ⟨by decide, by decide,
   pref_create_uniqueness 1 2 "daily errors" "" "" none none
     [⟨10, 1, "daily errors", "ERROR", "", none, none⟩]
     (by decide) (by decide)⟩

/-- The QUOTE_MINIMAL trigger, spelled out: some char of the field is the
delimiter, the quote char, or a line-terminator char. -/
theorem needsQuote_iff (f : String) :
    needsQuote f = true ↔
      ∃ c ∈ f.data, c = ',' ∨ c = '"' ∨ c = '\r' ∨ c = '\n' := by
  rw [needsQuote, List.any_eq_true]
  simp only [Bool.or_eq_true, decide_eq_true_eq]
  constructor
  · rintro ⟨c, hc, hor⟩
    exact ⟨c, hc, by tauto⟩
  · rintro ⟨c, hc, hor⟩
    exact ⟨c, hc, by tauto⟩

/-- **C4.** Parsing the streamed CSV export recovers the header row and then
exactly the `(id, timestamp, message, severity, source)` field tuples of the
raw filtered listing, in the same order — for every filter query and every
record content (commas, quote chars and newlines in messages included). -/
theorem export_csv_round_trip (q : FilterQuery) (logs : List Log) :
    csvParse (exportCsv q logs) =
      some (csvHeader :: (rawListing q logs).map recordRow) := by
  rw [csvParse,
    show exportCsv q logs =
      csvLines (csvHeader :: (rawListing q logs).map recordRow) from rfl]
  apply parseRecords_round
  intro row hmem
  rcases List.mem_cons.mp hmem with rfl | h2
  · simp [csvHeader]
  · obtain ⟨r, -, rfl⟩ := List.mem_map.mp h2
    simp [recordRow]

/-- **C4 witness**: a message containing a comma, a double quote and a
newline round-trips through the export. -/
theorem export_csv_round_trip_witness :
    csvParse (exportCsv FilterQuery.empty
      [⟨7, ⟨2024, 3, 5, 1, 2, 3⟩, "say \"hi\",\nnow", "INFO", "svc"⟩]) =
    some (csvHeader :: (rawListing FilterQuery.empty
      [⟨7, ⟨2024, 3, 5, 1, 2, 3⟩, "say \"hi\",\nnow", "INFO", "svc"⟩]).map
        recordRow) :=
  export_csv_round_trip FilterQuery.empty
    [⟨7, ⟨2024, 3, 5, 1, 2, 3⟩, "say \"hi\",\nnow", "INFO", "svc"⟩]

/-- **C5.** The export document begins with the literal header line
`id,timestamp,message,severity,source`; the rest is one CSV-encoded record
per filtered row with fields in the order id, timestamp, message, severity,
source; a field containing the delimiter, the quote char or a newline char
is quoted with embedded quote chars doubled, and any other field is written
verbatim. -/
theorem export_csv_format (q : FilterQuery) (logs : List Log) :
    (∃ rest, exportCsv q logs =
      "id,timestamp,message,severity,source\r\n" ++ rest) ∧
    exportCsv q logs =
      writeRow csvHeader ++ csvLines ((filteredLogs q logs).map recordRow) ∧
    writeRow csvHeader = "id,timestamp,message,severity,source\r\n" ∧
    (∀ r : Log, recordRow r =
      [toString r.id, renderTs r.timestamp, r.message, r.severity,
        r.source]) ∧
    (∀ f : String, (∃ c ∈ f.data, c = ',' ∨ c = '"' ∨ c = '\r' ∨ c = '\n') →
      encodeField false f = "\"" ++ String.mk (escField f.data) ++ "\"") ∧
    (∀ f : String, (∀ c ∈ f.data, ¬(c = ',' ∨ c = '"' ∨ c = '\r' ∨ c = '\n')) →
      encodeField false f = f) ∧
    (∀ s : List Char, escField s =
      s.flatMap (fun c => if c = '"' then ['"', '"'] else [c])) := by
  have hheader : writeRow csvHeader =
      "id,timestamp,message,severity,source\r\n" := by decide
  have hshape : exportCsv q logs =
      writeRow csvHeader ++ csvLines ((filteredLogs q logs).map recordRow) :=
    rfl
  refine ⟨⟨csvLines ((filteredLogs q logs).map recordRow), ?_⟩, hshape,
    hheader, fun r => rfl, ?_, ?_, ?_⟩
  · rw [hshape, hheader]
  · intro f hf
    have hq : needsQuote f = true := (needsQuote_iff f).mpr (by
      obtain ⟨c, hc, hcor⟩ := hf
      exact ⟨c, hc, by tauto⟩)
    rw [encodeField, if_pos (by rw [hq]; rfl)]
  · intro f hf
    have hq : needsQuote f = false := by
      rw [Bool.eq_false_iff]
      intro hx
      obtain ⟨c, hc, hcor⟩ := (needsQuote_iff f).mp hx
      exact hf c hc (by tauto)
    rw [encodeField, if_neg (by rw [hq]; simp)]
  · intro s
    induction s with
    | nil => rfl
    | cons c s' ih =>
      by_cases hc : c = '"'
      · subst hc
        simp [escField, ih]
      · simp [escField, hc, ih]

/-- **C5 witness**: the field `a,"b` (delimiter and quote char inside) is
quoted with its quote char doubled; the field `plain` is written
verbatim. -/
theorem export_csv_format_witness :
    (∃ c ∈ ("a,\"b" : String).data,
      c = ',' ∨ c = '"' ∨ c = '\r' ∨ c = '\n') ∧
    encodeField false "a,\"b" =
      "\"" ++ String.mk (escField ("a,\"b" : String).data) ++ "\"" ∧
    (∀ c ∈ ("plain" : String).data,
      ¬(c = ',' ∨ c = '"' ∨ c = '\r' ∨ c = '\n')) ∧
    encodeField false "plain" = "plain" :=
  ⟨by decide,
   (export_csv_format FilterQuery.empty []).2.2.2.2.1 "a,\"b" (by decide),
   by decide,
   (export_csv_format FilterQuery.empty []).2.2.2.2.2.1 "plain" (by decide)⟩

end LogsDashboard
